import Mathlib

/-!
Verification of the kord chord engine against its specification.

The development shallowly embeds the Rust sources (`named_pitch.rs`,
`core/parser.rs`, `wasm.rs`) as executable Lean definitions and settles the
frozen claims about them.  Parts of the repository that are referenced but
whose sources are absent (`pitch.rs`, `note.rs`, `octave.rs`, `chord.rs`,
`interval.rs`) are modelled from the specification; each such definition is
marked `Modelled from the spec:` in its doc comment.
-/

set_option maxRecDepth 4000

namespace Kord

/-- The 49 enharmonic pitch spellings, in the declaration order of
`named_pitch.rs` (`enum NamedPitch`): seven groups of seven letters
(F, C, G, D, A, E, B), one group per accidental count from triple flat
to triple sharp. -/
inductive NamedPitch where
  | FTripleFlat | CTripleFlat | GTripleFlat | DTripleFlat | ATripleFlat | ETripleFlat | BTripleFlat
  | FDoubleFlat | CDoubleFlat | GDoubleFlat | DDoubleFlat | ADoubleFlat | EDoubleFlat | BDoubleFlat
  | FFlat | CFlat | GFlat | DFlat | AFlat | EFlat | BFlat
  | F | C | G | D | A | E | B
  | FSharp | CSharp | GSharp | DSharp | ASharp | ESharp | BSharp
  | FDoubleSharp | CDoubleSharp | GDoubleSharp | DDoubleSharp | ADoubleSharp | EDoubleSharp | BDoubleSharp
  | FTripleSharp | CTripleSharp | GTripleSharp | DTripleSharp | ATripleSharp | ETripleSharp | BTripleSharp
deriving DecidableEq, Repr, Fintype

/-- Modelled from the spec: the 12 intrinsic pitch classes.  `pitch.rs` is
absent from the sources; the variant names are those used by
`named_pitch.rs` (`Pitch::C`, `Pitch::CSharp`, ...). -/
inductive Pitch where
  | C | CSharp | D | DSharp | E | F | FSharp | G | GSharp | A | ASharp | B
deriving DecidableEq, Repr, Fintype

namespace Pitch

/-- Modelled from the spec: the intrinsic semitone value of a pitch class
(spec section 3: PitchClass is one of 12 intrinsic semitone values, with the
standard letter bases C=0, D=2, E=4, F=5, G=7, A=9, B=11). -/
def semitone : Pitch → Nat
  | .C => 0 | .CSharp => 1 | .D => 2 | .DSharp => 3 | .E => 4 | .F => 5
  | .FSharp => 6 | .G => 7 | .GSharp => 8 | .A => 9 | .ASharp => 10 | .B => 11

end Pitch

namespace NamedPitch

/-- `impl HasLetter for NamedPitch` from `named_pitch.rs`: the letter of each
spelling. -/
def letter : NamedPitch → String
  | .FTripleFlat => "F" | .CTripleFlat => "C" | .GTripleFlat => "G" | .DTripleFlat => "D"
  | .ATripleFlat => "A" | .ETripleFlat => "E" | .BTripleFlat => "B"
  | .FDoubleFlat => "F" | .CDoubleFlat => "C" | .GDoubleFlat => "G" | .DDoubleFlat => "D"
  | .ADoubleFlat => "A" | .EDoubleFlat => "E" | .BDoubleFlat => "B"
  | .FFlat => "F" | .CFlat => "C" | .GFlat => "G" | .DFlat => "D"
  | .AFlat => "A" | .EFlat => "E" | .BFlat => "B"
  | .F => "F" | .C => "C" | .G => "G" | .D => "D"
  | .A => "A" | .E => "E" | .B => "B"
  | .FSharp => "F" | .CSharp => "C" | .GSharp => "G" | .DSharp => "D"
  | .ASharp => "A" | .ESharp => "E" | .BSharp => "B"
  | .FDoubleSharp => "F" | .CDoubleSharp => "C" | .GDoubleSharp => "G" | .DDoubleSharp => "D"
  | .ADoubleSharp => "A" | .EDoubleSharp => "E" | .BDoubleSharp => "B"
  | .FTripleSharp => "F" | .CTripleSharp => "C" | .GTripleSharp => "G" | .DTripleSharp => "D"
  | .ATripleSharp => "A" | .ETripleSharp => "E" | .BTripleSharp => "B"

/-- `impl HasPitch for NamedPitch` from `named_pitch.rs`: the pitch class of
each spelling, copied arm by arm from the source match. -/
def pitch : NamedPitch → Pitch
  | .FTripleFlat => .D | .CTripleFlat => .A | .GTripleFlat => .E | .DTripleFlat => .B
  | .ATripleFlat => .FSharp | .ETripleFlat => .CSharp | .BTripleFlat => .GSharp
  | .FDoubleFlat => .DSharp | .CDoubleFlat => .ASharp | .GDoubleFlat => .F | .DDoubleFlat => .C
  | .ADoubleFlat => .G | .EDoubleFlat => .D | .BDoubleFlat => .A
  | .FFlat => .E | .CFlat => .B | .GFlat => .FSharp | .DFlat => .CSharp
  | .AFlat => .GSharp | .EFlat => .DSharp | .BFlat => .ASharp
  | .F => .F | .C => .C | .G => .G | .D => .D
  | .A => .A | .E => .E | .B => .B
  | .FSharp => .FSharp | .CSharp => .CSharp | .GSharp => .GSharp | .DSharp => .DSharp
  | .ASharp => .ASharp | .ESharp => .F | .BSharp => .C
  | .FDoubleSharp => .G | .CDoubleSharp => .D | .GDoubleSharp => .A | .DDoubleSharp => .E
  | .ADoubleSharp => .B | .EDoubleSharp => .FSharp | .BDoubleSharp => .CSharp
  | .FTripleSharp => .GSharp | .CTripleSharp => .DSharp | .GTripleSharp => .ASharp
  | .DTripleSharp => .F | .ATripleSharp => .C | .ETripleSharp => .G | .BTripleSharp => .D

end NamedPitch

/-- `static ALL_PITCHES` from `named_pitch.rs`: all 49 spellings in
declaration order. -/
def ALL_PITCHES : List NamedPitch :=
  [.FTripleFlat, .CTripleFlat, .GTripleFlat, .DTripleFlat, .ATripleFlat, .ETripleFlat, .BTripleFlat,
   .FDoubleFlat, .CDoubleFlat, .GDoubleFlat, .DDoubleFlat, .ADoubleFlat, .EDoubleFlat, .BDoubleFlat,
   .FFlat, .CFlat, .GFlat, .DFlat, .AFlat, .EFlat, .BFlat,
   .F, .C, .G, .D, .A, .E, .B,
   .FSharp, .CSharp, .GSharp, .DSharp, .ASharp, .ESharp, .BSharp,
   .FDoubleSharp, .CDoubleSharp, .GDoubleSharp, .DDoubleSharp, .ADoubleSharp, .EDoubleSharp, .BDoubleSharp,
   .FTripleSharp, .CTripleSharp, .GTripleSharp, .DTripleSharp, .ATripleSharp, .ETripleSharp, .BTripleSharp]

/-- The position of a spelling in `ALL_PITCHES`
(`ALL_PITCHES.iter().position(|&p| p == self).unwrap()` in the source; the
unwrap never fails because every variant occurs in the table). -/
def pitchIndex (p : NamedPitch) : Nat := ALL_PITCHES.indexOf p

/-- Outcome of a Rust computation that either returns a value or aborts the
process with a panic message. -/
inductive RustOutcome (α : Type) where
  | ok (value : α)
  | panicked (msg : String)
deriving DecidableEq, Repr

/-- `impl Add<i8> for NamedPitch` from `named_pitch.rs`: look up the
spelling's index, add `rhs`, panic with "NamedPitch out of range." when the
new index is outside `0..=49`, then index `ALL_PITCHES` (length 49), which
itself panics when the index is 49.  The source adds `index as i8 + rhs` on
`i8`; the addition is modelled exactly on `Int` (the claims concern small
offsets far from `i8` overflow). -/
def namedPitchAdd (p : NamedPitch) (rhs : Int) : RustOutcome NamedPitch :=
  let index : Int := pitchIndex p
  let newIndex : Int := index + rhs
  if ¬ (0 ≤ newIndex ∧ newIndex ≤ 49) then
    .panicked "NamedPitch out of range."
  else if h : newIndex.toNat < ALL_PITCHES.length then
    .ok (ALL_PITCHES.get ⟨newIndex.toNat, h⟩)
  else
    .panicked "index out of bounds: the len is 49 but the index is 49"

/-- The accidental count of a spelling, -3 (triple flat) to +3 (triple
sharp), read off the variant groups of `named_pitch.rs`. -/
def accidentalCount : NamedPitch → Int
  | .FTripleFlat | .CTripleFlat | .GTripleFlat | .DTripleFlat
  | .ATripleFlat | .ETripleFlat | .BTripleFlat => -3
  | .FDoubleFlat | .CDoubleFlat | .GDoubleFlat | .DDoubleFlat
  | .ADoubleFlat | .EDoubleFlat | .BDoubleFlat => -2
  | .FFlat | .CFlat | .GFlat | .DFlat | .AFlat | .EFlat | .BFlat => -1
  | .F | .C | .G | .D | .A | .E | .B => 0
  | .FSharp | .CSharp | .GSharp | .DSharp | .ASharp | .ESharp | .BSharp => 1
  | .FDoubleSharp | .CDoubleSharp | .GDoubleSharp | .DDoubleSharp
  | .ADoubleSharp | .EDoubleSharp | .BDoubleSharp => 2
  | .FTripleSharp | .CTripleSharp | .GTripleSharp | .DTripleSharp
  | .ATripleSharp | .ETripleSharp | .BTripleSharp => 3

/-- The standard semitone of a natural letter (C=0, D=2, E=4, F=5, G=7, A=9,
B=11), as the claim states it. -/
def letterBase (s : String) : Int :=
  if s = "C" then 0
  else if s = "D" then 2
  else if s = "E" then 4
  else if s = "F" then 5
  else if s = "G" then 7
  else if s = "A" then 9
  else if s = "B" then 11
  else 0

/-- The semitone value a spelling denotes physically:
`(letter_base + accidental) mod 12`. -/
def physicalSemitone (p : NamedPitch) : Int :=
  (letterBase p.letter + accidentalCount p) % 12

/-- Modelled from the spec: the ten supported octaves (`octave.rs` is absent
from the sources; the variants are those named by `core/parser.rs`). -/
inductive Octave where
  | Zero | One | Two | Three | Four | Five | Six | Seven | Eight | Nine
deriving DecidableEq, Repr, Fintype

/-- The match arms of `note_str_to_note` in `core/parser.rs`, in source
order.  Each arm maps a spelling string to a note constant (`note::ASharp`
etc.); the constants live in the absent `note.rs` and correspond one to one
to `NamedPitch` spellings, which is the part the parser decides (the
constants' octave is not decided by the sources present and plays no role in
which strings are accepted). -/
def noteTable : List (String × NamedPitch) :=
  [("A", .A), ("A#", .ASharp), ("A♯", .ASharp), ("A##", .ADoubleSharp), ("A𝄪", .ADoubleSharp),
   ("Ab", .AFlat), ("A♭", .AFlat), ("Abb", .ADoubleFlat), ("A𝄫", .ADoubleFlat),
   ("B", .B), ("B#", .BSharp), ("B♯", .BSharp), ("B##", .BDoubleSharp), ("B𝄪", .BDoubleSharp),
   ("Bb", .BFlat), ("B♭", .BFlat), ("Bbb", .BDoubleFlat), ("B𝄫", .BDoubleFlat),
   ("C", .C), ("C#", .CSharp), ("C♯", .CSharp), ("C##", .CDoubleSharp), ("C𝄪", .CDoubleSharp),
   ("Cb", .CFlat), ("C♭", .CFlat), ("Cbb", .CDoubleFlat), ("C𝄫", .CDoubleFlat),
   ("D", .D), ("D#", .DSharp), ("D♯", .DSharp), ("D##", .DDoubleSharp), ("D𝄪", .DDoubleSharp),
   ("Db", .DFlat), ("D♭", .DFlat), ("Dbb", .DDoubleFlat), ("D𝄫", .DDoubleFlat),
   ("E", .E), ("E#", .ESharp), ("E♯", .ESharp), ("E##", .EDoubleSharp), ("E𝄪", .EDoubleSharp),
   ("Eb", .EFlat), ("E♭", .EFlat), ("Ebb", .EDoubleFlat), ("E𝄫", .EDoubleFlat),
   ("F", .F), ("F#", .FSharp), ("F♯", .FSharp), ("F##", .FDoubleSharp), ("F𝄪", .FDoubleSharp),
   ("Fb", .FFlat), ("F♭", .FFlat), ("Fbb", .FDoubleFlat), ("F𝄫", .FDoubleFlat),
   ("G", .G), ("G#", .GSharp), ("G♯", .GSharp), ("G##", .GDoubleSharp), ("G𝄪", .GDoubleSharp),
   ("Gb", .GFlat), ("G♭", .GFlat), ("Gbb", .GDoubleFlat), ("G𝄫", .GDoubleFlat)]

/-- `note_str_to_note` from `core/parser.rs`: a total match on the spelling
string, returning the matched note for the 63 listed arms and the typed
error (here `none`) for every other string; the function never panics. -/
def noteStrToNote (s : String) : Option NamedPitch := noteTable.lookup s

/-- The spec-side description of the supported note spellings: the letters A
through G. -/
def noteLetters : List String := ["A", "B", "C", "D", "E", "F", "G"]

/-- The spec-side description of the supported accidentals: natural, single
or double sharp or flat, each in ASCII or Unicode-glyph form. -/
def accidentalSuffixes : List String :=
  ["", "#", "♯", "##", "𝄪", "b", "♭", "bb", "𝄫"]

/-- The spec-side set of supported spelling strings: every letter followed
by every supported accidental suffix. -/
def supportedNoteStrings : List String :=
  (noteLetters.map (fun l => accidentalSuffixes.map (fun t => l ++ t))).flatten

/-- The match arms of `octave_str_to_octave` in `core/parser.rs`. -/
def octaveTable : List (String × Octave) :=
  [("0", .Zero), ("1", .One), ("2", .Two), ("3", .Three), ("4", .Four),
   ("5", .Five), ("6", .Six), ("7", .Seven), ("8", .Eight), ("9", .Nine)]

/-- `octave_str_to_octave` from `core/parser.rs`: a total match on the
digit string, returning the matched octave for the ten listed arms and the
typed error (here `none`) otherwise; the function never panics. -/
def octaveStrToOctave (s : String) : Option Octave := octaveTable.lookup s

/-- The spec-side set of supported octave strings: the single decimal digits
0 through 9. -/
def octaveDigitStrings : List String :=
  ["0", "1", "2", "3", "4", "5", "6", "7", "8", "9"]

/-- Modelled from the spec: a Note is a pitch spelling bound to an octave in
the supported range 0-9 (`note.rs` is absent from the sources). -/
structure SpecNote where
  pitch : NamedPitch
  octave : Fin 10
deriving DecidableEq, Repr

/-- Modelled from the spec: the unique integer identity of a note, usable as
a bit position; 12 pitch classes per octave over the supported span, so
enharmonic spellings intentionally share an id (spec section 3). -/
def noteId (n : SpecNote) : Nat := 12 * n.octave.val + n.pitch.pitch.semitone

/-- Reduction of a note identity to its pitch class. -/
def pc (n : Nat) : Fin 12 := ⟨n % 12, Nat.mod_lt _ (by norm_num)⟩

/-- Modelled from the spec: the NoteSet bit-set, a fixed-width bit-set over
note identities with one bit per id (spec section 3). -/
def noteSetMask (ns : List SpecNote) : Nat :=
  (ns.map noteId).foldl (fun acc i => acc ||| (1 <<< i)) 0

/-- The octave-normalized bit-set of a list of notes: the set of pitch
classes of their identities. -/
def notePcSet (ns : List SpecNote) : Finset (Fin 12) :=
  (ns.map (fun n => pc (noteId n))).toFinset

/-- Modelled from the spec: a Catalog entry (spec section 4.3) maps a
relative interval set (mod 12, root excluded) to a chord quality, split into
the intervals defined by its modifiers and those defined by its built-in
extensions. -/
structure CatalogEntry where
  modifierIntervals : List (Fin 12)
  extensionIntervals : List (Fin 12)
deriving DecidableEq, Repr

/-- The full relative interval set an entry accounts for. -/
def CatalogEntry.fullIntervals (e : CatalogEntry) : Finset (Fin 12) :=
  (e.modifierIntervals ++ e.extensionIntervals).toFinset

/-- Modelled from the spec: a representative instance of the static Catalog
(spec sections 4.3 and 8): bare root, major, minor, diminished and augmented
triads, and the common sevenths. -/
def catalog : List CatalogEntry :=
  [⟨[], []⟩,
   ⟨[4, 7], []⟩,
   ⟨[3, 7], []⟩,
   ⟨[3, 6], []⟩,
   ⟨[4, 8], []⟩,
   ⟨[4, 7, 10], []⟩,
   ⟨[4, 7, 11], []⟩,
   ⟨[3, 7, 10], []⟩]

/-- Modelled from the spec: the mod-12 tones that are independently valid
extension tones (flat ninth 1, ninth 2, eleventh 5, sharp eleventh 6, flat
thirteenth 8, thirteenth 9; spec section 4.3). -/
def validExtensionTones : Finset (Fin 12) := {1, 2, 5, 6, 8, 9}

/-- Modelled from the spec: the relative interval set of a note set against
a hypothetical root: every other pitch class's mod-12 distance from the
root, root excluded, duplicates removed (spec section 4.3). -/
def relIntervals (r : Fin 12) (s : Finset (Fin 12)) : Finset (Fin 12) :=
  (s.erase r).image (fun x => x - r)

/-- Modelled from the spec: subset-tolerant Catalog matching (spec section
4.3): an entry matches when its interval set is contained in the input's
relative interval set and every left-over interval is itself a valid
extension tone; otherwise the root is rejected. -/
def entryMatches (e : CatalogEntry) (rel : Finset (Fin 12)) : Bool :=
  decide (e.fullIntervals ⊆ rel ∧ rel \ e.fullIntervals ⊆ validExtensionTones)

/-- Modelled from the spec: a chord descriptor (spec section 3): root,
modifiers and extensions (carried by their defining intervals), inversion
index, optional slash note, and the crunchy voicing flag.  The root is kept
as a pitch class with the octave it is built at. -/
structure ChordDescriptor where
  root : Fin 12
  rootOctave : Nat
  modifierIntervals : List (Fin 12)
  extensionIntervals : List (Fin 12)
  inversion : Nat
  slash : Option (Fin 12)
  isCrunchy : Bool
deriving DecidableEq, Repr

/-- The elements of a set of pitch classes in ascending order. -/
def finsetToList (s : Finset (Fin 12)) : List (Fin 12) :=
  (List.finRange 12).filter (fun i => decide (i ∈ s))

/-- Modelled from the spec: the descriptor an accepted (root, entry) match
produces: the entry's modifiers, the entry's extensions followed by the
folded left-over extension tones in ascending order, root position, no
slash, default voicing at octave 4. -/
def mkDescriptor (r : Fin 12) (e : CatalogEntry) (rel : Finset (Fin 12)) : ChordDescriptor :=
  ⟨r, 4, e.modifierIntervals,
   e.extensionIntervals ++ finsetToList (rel \ e.fullIntervals), 0, none, false⟩

/-- Modelled from the spec: the candidates the Candidate Generator accepts
for one root hypothesis (spec section 4.4). -/
def candidatesForRoot (r : Fin 12) (s : Finset (Fin 12)) : List ChordDescriptor :=
  (catalog.filter (fun e => entryMatches e (relIntervals r s))).map
    (fun e => mkDescriptor r e (relIntervals r s))

/-- Modelled from the spec: `identify` (spec sections 4.4 and 6, reached
through `Chord::try_from_notes` in `wasm.rs`): try every pitch class present
in the octave-normalized note set as a root and collect the accepted
candidates.  Without a bass hint every candidate is in root position. -/
def identify (s : Finset (Fin 12)) : List ChordDescriptor :=
  ((List.finRange 12).filter (fun r => decide (r ∈ s))).flatMap
    (fun r => candidatesForRoot r s)

/-- Modelled from the spec: the raw chord tones of a descriptor before
sorting (spec section 4.7): the root at its octave, one tone per modifier
interval, and one tone per extension interval, extension tones placed in the
same octave when the voicing is crunchy and an octave up when spread. -/
def chordToneIds (d : ChordDescriptor) : List Nat :=
  let rootId := 12 * d.rootOctave + d.root.val
  let modTones := d.modifierIntervals.map (fun i => rootId + i.val)
  let extTones := d.extensionIntervals.map
    (fun i => if d.isCrunchy then rootId + i.val else rootId + 12 + i.val)
  rootId :: (modTones ++ extTones)

/-- Modelled from the spec: apply an inversion by moving the lowest
`k` tones up one octave each (spec section 4.7). -/
def applyInversion (k : Nat) (l : List Nat) : List Nat :=
  l.drop k ++ (l.take k).map (· + 12)

/-- Modelled from the spec: `build` (spec sections 4.7 and 6, reached
through `KordChord::chord` in `wasm.rs`): sort the chord tones ascending,
apply the inversion, and prepend the slash note as the new lowest tone when
present. -/
def buildIds (d : ChordDescriptor) : List Nat :=
  let sorted := (chordToneIds d).insertionSort (· ≤ ·)
  let inverted := applyInversion d.inversion sorted
  match d.slash with
  | none => inverted
  | some sl => (12 * (d.rootOctave - 1) + sl.val) :: inverted

/-- The pitch-class set (octave-normalized bit-set) of a list of note
identities. -/
def pcSetOfIds (l : List Nat) : Finset (Fin 12) := (l.map pc).toFinset

/-- The octave-normalized bit-set of the notes `build` produces. -/
def buildPcs (d : ChordDescriptor) : Finset (Fin 12) := pcSetOfIds (buildIds d)

/-- Modelled from the spec: `KordChord::with_crunchy` from `wasm.rs`
delegates to `Chordable::with_crunchy` in the absent `chord.rs`; it returns
a new descriptor with the voicing flag set to the provided value. -/
def withCrunchy (d : ChordDescriptor) (b : Bool) : ChordDescriptor :=
  { d with isCrunchy := b }

/-- Modelled from the spec: an Interval carries a signed semitone count and
the signed offset it moves a spelling along the `ALL_PITCHES` table
(`interval.rs` is absent from the sources; the offset is the quantity the
source's `NamedPitch + i8` consumes). -/
structure SpecInterval where
  semitones : Int
  pitchOffset : Int
deriving DecidableEq, Repr

/-- Modelled from the spec: `Note + Interval` (`note.rs` is absent from the
sources).  The spelling arithmetic delegates to the `NamedPitch + i8`
implementation of `named_pitch.rs`, which panics out of range; the octave is
recomputed from the semitone identity and the supported span is octaves 0-9
(ids 0-119); an out-of-span result aborts (spec section 9 records that
out-of-range arithmetic aborted rather than returning a typed failure, and
the operator's output type in `wasm.rs` is a plain note, not a result). -/
def noteAddOutcome (n : SpecNote) (iv : SpecInterval) : RustOutcome SpecNote :=
  match namedPitchAdd n.pitch iv.pitchOffset with
  | .panicked msg => .panicked msg
  | .ok p =>
      let newId : Int := (noteId n : Int) + iv.semitones
      if h : 0 ≤ newId ∧ newId < 120 then
        .ok ⟨p, ⟨newId.toNat / 12, by omega⟩⟩
      else
        .panicked "Octave out of range."

/-- Outcome of a wasm binding call: a value, a typed JavaScript error, or a
process abort. -/
inductive JsOutcome (α : Type) where
  | ok (value : α)
  | err (msg : String)
  | panicked (msg : String)
deriving DecidableEq, Repr

/-- `KordNote::add_interval` from `wasm.rs`: computes `self.inner + interval`
with the plain addition operator and wraps the result in `Ok`
unconditionally; no typed error is ever constructed, so any failure of the
addition surfaces as a panic. -/
def addIntervalWasm (n : SpecNote) (iv : SpecInterval) : JsOutcome SpecNote :=
  match noteAddOutcome n iv with
  | .ok m => .ok m
  | .panicked msg => .panicked msg

/-! ## Helper lemmas -/

theorem lookup_isSome_iff_mem {α β : Type} [BEq α] [LawfulBEq α] (l : List (α × β)) (a : α) :
    (l.lookup a).isSome ↔ a ∈ l.map Prod.fst := by
  rw [List.lookup_isSome_iff, List.mem_map]
  constructor
  · rintro ⟨p, hp, he⟩
    exact ⟨p, hp, (beq_iff_eq.mp he).symm⟩
  · rintro ⟨p, hp, he⟩
    exact ⟨p, hp, beq_iff_eq.mpr he.symm⟩

theorem pc_add_twelve (n : Nat) : pc (n + 12) = pc n := by
  apply Fin.ext
  show (n + 12) % 12 = n % 12
  omega

theorem pcSetOfIds_append (l₁ l₂ : List Nat) :
    pcSetOfIds (l₁ ++ l₂) = pcSetOfIds l₁ ∪ pcSetOfIds l₂ := by
  simp [pcSetOfIds]

theorem pcSetOfIds_perm {l l' : List Nat} (h : l.Perm l') :
    pcSetOfIds l = pcSetOfIds l' :=
  List.toFinset_eq_of_perm _ _ (h.map pc)

theorem pcSetOfIds_applyInversion (k : Nat) (l : List Nat) :
    pcSetOfIds (applyInversion k l) = pcSetOfIds l := by
  rw [applyInversion, pcSetOfIds_append]
  have h : pcSetOfIds ((l.take k).map (· + 12)) = pcSetOfIds (l.take k) := by
    rw [pcSetOfIds, pcSetOfIds, List.map_map]
    congr 1
    apply List.map_congr_left
    intro a _
    exact pc_add_twelve a
  rw [h, Finset.union_comm, ← pcSetOfIds_append, List.take_append_drop]

theorem pcSetOfIds_insertionSort (l : List Nat) :
    pcSetOfIds (l.insertionSort (· ≤ ·)) = pcSetOfIds l :=
  pcSetOfIds_perm (List.perm_insertionSort _ l)

theorem buildPcs_eq_chordTones (d : ChordDescriptor) (h : d.slash = none) :
    buildPcs d = pcSetOfIds (chordToneIds d) := by
  rw [buildPcs, buildIds, h]
  simp only
  rw [pcSetOfIds_applyInversion, pcSetOfIds_insertionSort]

theorem toFinset_finsetToList (s : Finset (Fin 12)) :
    (finsetToList s).toFinset = s := by
  ext x
  simp [finsetToList, List.mem_filter, List.mem_finRange]

theorem pc_rootId (oct : Nat) (r : Fin 12) : pc (12 * oct + r.val) = r := by
  apply Fin.ext
  show (12 * oct + r.val) % 12 = r.val
  omega

theorem pc_rootId_add (oct : Nat) (r i : Fin 12) :
    pc (12 * oct + r.val + i.val) = r + i := by
  apply Fin.ext
  show (12 * oct + r.val + i.val) % 12 = (r + i).val
  rw [Fin.add_def]
  show _ = (r.val + i.val) % 12
  omega

theorem pc_rootId_add' (oct : Nat) (r i : Fin 12) :
    pc (12 * oct + r.val + 12 + i.val) = r + i := by
  apply Fin.ext
  show (12 * oct + r.val + 12 + i.val) % 12 = (r + i).val
  rw [Fin.add_def]
  show _ = (r.val + i.val) % 12
  omega

theorem pcs_cons (a : Nat) (l : List Nat) :
    pcSetOfIds (a :: l) = insert (pc a) (pcSetOfIds l) := by
  simp [pcSetOfIds]

theorem pcs_map_fin (f : Fin 12 → Nat) (g : Fin 12 → Fin 12) (l : List (Fin 12))
    (h : ∀ i, pc (f i) = g i) :
    pcSetOfIds (l.map f) = l.toFinset.image g := by
  ext x
  simp only [pcSetOfIds, List.map_map, List.mem_toFinset, List.mem_map, Finset.mem_image,
    Function.comp]
  constructor
  · rintro ⟨i, hi, e⟩
    exact ⟨i, hi, (h i).symm.trans e⟩
  · rintro ⟨i, hi, e⟩
    exact ⟨i, hi, (h i).trans e⟩

theorem buildPcs_eq_chordTones_slash (d : ChordDescriptor) (sl : Fin 12) (h : d.slash = some sl) :
    buildPcs d =
      insert (pc (12 * (d.rootOctave - 1) + sl.val)) (pcSetOfIds (chordToneIds d)) := by
  rw [buildPcs, buildIds, h]
  simp only
  rw [pcs_cons, pcSetOfIds_applyInversion, pcSetOfIds_insertionSort]

theorem chordToneIds_crunchy (d : ChordDescriptor) (hc : d.isCrunchy = true) :
    chordToneIds d =
      (12 * d.rootOctave + d.root.val) ::
        (d.modifierIntervals.map (fun i => 12 * d.rootOctave + d.root.val + i.val) ++
         d.extensionIntervals.map (fun i => 12 * d.rootOctave + d.root.val + i.val)) := by
  rw [chordToneIds]
  simp [hc]

theorem chordToneIds_spread (d : ChordDescriptor) (hc : d.isCrunchy = false) :
    chordToneIds d =
      (12 * d.rootOctave + d.root.val) ::
        (d.modifierIntervals.map (fun i => 12 * d.rootOctave + d.root.val + i.val) ++
         d.extensionIntervals.map (fun i => 12 * d.rootOctave + d.root.val + 12 + i.val)) := by
  rw [chordToneIds]
  simp [hc]

theorem chordTones_pcs (d : ChordDescriptor) :
    pcSetOfIds (chordToneIds d) =
      insert d.root
        ((d.modifierIntervals.toFinset ∪ d.extensionIntervals.toFinset).image
          (fun i => d.root + i)) := by
  cases hc : d.isCrunchy
  · rw [chordToneIds_spread d hc, pcs_cons, pcSetOfIds_append,
      pcs_map_fin _ (fun i => d.root + i) _ (fun i => pc_rootId_add d.rootOctave d.root i),
      pcs_map_fin _ (fun i => d.root + i) _ (fun i => pc_rootId_add' d.rootOctave d.root i),
      pc_rootId, ← Finset.image_union]
  · rw [chordToneIds_crunchy d hc, pcs_cons, pcSetOfIds_append,
      pcs_map_fin _ (fun i => d.root + i) _ (fun i => pc_rootId_add d.rootOctave d.root i),
      pcs_map_fin _ (fun i => d.root + i) _ (fun i => pc_rootId_add d.rootOctave d.root i),
      pc_rootId, ← Finset.image_union]

theorem buildPcs_mkDescriptor (r : Fin 12) (s : Finset (Fin 12)) (e : CatalogEntry)
    (hr : r ∈ s) (hsub : e.fullIntervals ⊆ relIntervals r s) :
    buildPcs (mkDescriptor r e (relIntervals r s)) = s := by
  rw [buildPcs_eq_chordTones _ rfl, chordTones_pcs]
  show insert r
      ((e.modifierIntervals.toFinset ∪
        (e.extensionIntervals ++ finsetToList (relIntervals r s \ e.fullIntervals)).toFinset).image
        (fun i => r + i)) = s
  rw [List.toFinset_append, toFinset_finsetToList]
  have hfull : e.modifierIntervals.toFinset ∪
      (e.extensionIntervals.toFinset ∪ (relIntervals r s \ e.fullIntervals)) =
      relIntervals r s := by
    rw [← Finset.union_assoc]
    have hm : e.modifierIntervals.toFinset ∪ e.extensionIntervals.toFinset = e.fullIntervals := by
      rw [CatalogEntry.fullIntervals, List.toFinset_append]
    rw [hm]
    exact Finset.union_sdiff_of_subset hsub
  rw [hfull]
  have himg : (relIntervals r s).image (fun i => r + i) = s.erase r := by
    rw [relIntervals, Finset.image_image]
    have hcomp : ((fun i => r + i) ∘ fun x => x - r) = id := by
      funext x
      show r + (x - r) = x
      ring
    rw [hcomp, Finset.image_id]
  rw [himg, Finset.insert_erase hr]

theorem set_getElem_self {α : Type} (l : List α) (i : Nat) (h : i < l.length) :
    l.set i (l.get ⟨i, h⟩) = l := by
  apply List.ext_getElem
  · simp
  · intro k h1 h2
    rw [List.getElem_set]
    split <;> simp_all

theorem notePcSet_eq (ns : List SpecNote) : notePcSet ns = pcSetOfIds (ns.map noteId) := by
  rw [notePcSet, pcSetOfIds, List.map_map]
  rfl

/-! ## Claim theorems -/

/-- C1: round-trip of identification and construction: every chord
descriptor returned by `identify` on a note set rebuilds, through `build`,
to exactly the original octave-normalized note-identity bit-set. -/
theorem c1_identify_build_round_trip (s : Finset (Fin 12)) (d : ChordDescriptor)
    (hd : d ∈ identify s) : buildPcs d = s := by
  rw [identify, List.mem_flatMap] at hd
  obtain ⟨r, hr, hdr⟩ := hd
  rw [List.mem_filter, decide_eq_true_iff] at hr
  rw [candidatesForRoot, List.mem_map] at hdr
  obtain ⟨e, he, rfl⟩ := hdr
  rw [List.mem_filter, entryMatches, decide_eq_true_iff] at he
  exact buildPcs_mkDescriptor r s e hr.2 he.2.1

/-- C1 witness: the round-trip at the concrete input set C, E, G and its
major-triad descriptor. -/
theorem c1_identify_build_round_trip_witness :
    (mkDescriptor 0 ⟨[4, 7], []⟩ (relIntervals 0 {0, 4, 7})) ∈
        identify ({0, 4, 7} : Finset (Fin 12)) ∧
    buildPcs (mkDescriptor 0 ⟨[4, 7], []⟩ (relIntervals 0 {0, 4, 7})) =
      ({0, 4, 7} : Finset (Fin 12)) :=
  ⟨by decide, c1_identify_build_round_trip _ _ (by decide)⟩

/-- C2 counterexample: adding a minor second (one semitone, table offset 7)
to B9 lands outside the supported octave span, and the wasm `add_interval`
outcome is a process abort (panic), not the typed `InvalidOctaveRange`
error the claim promises. -/
theorem c2_typed_error_counterexample :
    addIntervalWasm ⟨NamedPitch.B, 9⟩ ⟨1, 7⟩ = JsOutcome.panicked "Octave out of range." ∧
    addIntervalWasm ⟨NamedPitch.B, 9⟩ ⟨1, 7⟩ ≠ JsOutcome.err "InvalidOctaveRange" := by
  decide

/-- C2 amended: `add_interval` never returns a typed error for any note and
interval (it wraps the plain operator result in Ok unconditionally), and an
addition whose resulting identity falls outside the supported octave span
aborts with a panic — it is neither clamped nor returned as a typed
failure. -/
theorem c2_add_interval_aborts (n : SpecNote) (iv : SpecInterval) :
    (∀ msg, addIntervalWasm n iv ≠ JsOutcome.err msg) ∧
    (¬ (0 ≤ (noteId n : Int) + iv.semitones ∧ (noteId n : Int) + iv.semitones < 120) →
      ∃ msg, addIntervalWasm n iv = JsOutcome.panicked msg) := by
  constructor
  · intro msg h
    rw [addIntervalWasm] at h
    cases hadd : noteAddOutcome n iv <;> rw [hadd] at h <;> simp at h
  · intro hout
    rw [addIntervalWasm, noteAddOutcome]
    cases namedPitchAdd n.pitch iv.pitchOffset with
    | panicked msg => exact ⟨msg, rfl⟩
    | ok p =>
        simp only
        rw [dif_neg hout]
        exact ⟨"Octave out of range.", rfl⟩

/-- C2 witness: the amended statement applied at B9 plus a minor second. -/
theorem c2_add_interval_aborts_witness :
    addIntervalWasm ⟨NamedPitch.B, 9⟩ ⟨1, 7⟩ ≠ JsOutcome.err "InvalidOctaveRange" ∧
    (∃ msg, addIntervalWasm ⟨NamedPitch.B, 9⟩ ⟨1, 7⟩ = JsOutcome.panicked msg) :=
  ⟨(c2_add_interval_aborts ⟨NamedPitch.B, 9⟩ ⟨1, 7⟩).1 "InvalidOctaveRange",
   (c2_add_interval_aborts ⟨NamedPitch.B, 9⟩ ⟨1, 7⟩).2 (by decide)⟩

/-- C3: for every one of the 49 spellings, the semitone value of its
`pitch()` equals `(letter_base + accidental) mod 12`. -/
theorem c3_semitone_invariant :
    ∀ p : NamedPitch, physicalSemitone p = (p.pitch.semitone : Int) := by decide

/-- C4: enharmonic invariance: two distinct spellings share the same
pitch-class identity exactly when they denote the same physical semitone,
and respelling any note of an input list to a spelling with the same note
id leaves both the NoteSet bit-set and the whole identify result (hence
every returned chord's structure) unchanged. -/
theorem c4_enharmonic_invariance :
    (∀ p q : NamedPitch, p ≠ q →
      (p.pitch = q.pitch ↔ physicalSemitone p = physicalSemitone q)) ∧
    (∀ (ns : List SpecNote) (i : Nat) (n' : SpecNote) (hi : i < ns.length),
      noteId n' = noteId (ns.get ⟨i, hi⟩) →
      noteSetMask (ns.set i n') = noteSetMask ns ∧
      identify (notePcSet (ns.set i n')) = identify (notePcSet ns)) := by
  constructor
  · decide
  · intro ns i n' hi hid
    have hmap : (ns.set i n').map noteId = ns.map noteId := by
      rw [List.map_set, hid]
      have h := set_getElem_self (ns.map noteId) i (by simpa using hi)
      simpa using h
    refine ⟨?_, ?_⟩
    · rw [noteSetMask, noteSetMask, hmap]
    · rw [notePcSet_eq, notePcSet_eq, hmap]

/-- C4 witness: E sharp versus F share a pitch class, and respelling the E
of C-E-G as F flat changes neither the bit-set nor the identify result. -/
theorem c4_enharmonic_invariance_witness :
    (NamedPitch.ESharp ≠ NamedPitch.F ∧
      (NamedPitch.ESharp.pitch = NamedPitch.F.pitch ↔
        physicalSemitone NamedPitch.ESharp = physicalSemitone NamedPitch.F)) ∧
    (noteId ⟨NamedPitch.FFlat, 4⟩ =
        noteId ([⟨NamedPitch.C, 4⟩, ⟨NamedPitch.E, 4⟩, ⟨NamedPitch.G, 4⟩].get ⟨1, by decide⟩) ∧
      noteSetMask ([⟨NamedPitch.C, 4⟩, ⟨NamedPitch.E, 4⟩,
          ⟨NamedPitch.G, 4⟩].set 1 ⟨NamedPitch.FFlat, 4⟩) =
        noteSetMask [⟨NamedPitch.C, 4⟩, ⟨NamedPitch.E, 4⟩, ⟨NamedPitch.G, 4⟩] ∧
      identify (notePcSet ([⟨NamedPitch.C, 4⟩, ⟨NamedPitch.E, 4⟩,
          ⟨NamedPitch.G, 4⟩].set 1 ⟨NamedPitch.FFlat, 4⟩)) =
        identify (notePcSet [⟨NamedPitch.C, 4⟩, ⟨NamedPitch.E, 4⟩, ⟨NamedPitch.G, 4⟩])) :=
  ⟨⟨by decide, c4_enharmonic_invariance.1 _ _ (by decide)⟩,
   ⟨by decide,
    (c4_enharmonic_invariance.2 _ 1 _ (by decide) (by decide)).1,
    (c4_enharmonic_invariance.2 _ 1 _ (by decide) (by decide)).2⟩⟩

/-- C5: singleton completeness: for every single-pitch-class note set,
identify returns exactly one candidate for that pitch class, and it has
empty modifier and extension sets. -/
theorem c5_singleton_completeness :
    ∀ r : Fin 12, identify {r} = [⟨r, 4, [], [], 0, none, false⟩] := by decide

/-- C6: toggling the crunchy voicing flag never changes which pitch classes
`build` produces: the resulting octave-normalized bit-set is unchanged for
every descriptor and both flag values. -/
theorem c6_crunchy_preserves_pitch_classes (d : ChordDescriptor) (b : Bool) :
    buildPcs (withCrunchy d b) = buildPcs d := by
  cases hsl : d.slash with
  | none =>
      rw [buildPcs_eq_chordTones _ hsl, buildPcs_eq_chordTones (withCrunchy d b) hsl,
        chordTones_pcs, chordTones_pcs]
      rfl
  | some sl =>
      rw [buildPcs_eq_chordTones_slash d sl hsl,
        buildPcs_eq_chordTones_slash (withCrunchy d b) sl hsl,
        chordTones_pcs, chordTones_pcs]
      rfl

/-- C7: `note_str_to_note` returns Ok exactly for the supported spellings —
every letter A through G followed by one of the nine supported accidental
suffixes (natural, single or double sharp or flat, ASCII or Unicode glyph) —
and the typed error for every other string, triple sharps and flats
included; the embedding is a total function, so it never panics. -/
theorem c7_note_parser_characterization :
    ∀ s : String, (noteStrToNote s).isSome ↔ s ∈ supportedNoteStrings := by
  intro s
  rw [noteStrToNote, lookup_isSome_iff_mem]
  have h : supportedNoteStrings = noteTable.map Prod.fst := by decide
  rw [h]

/-- C8: `octave_str_to_octave` returns Ok exactly for the single decimal
digits 0 through 9 and the typed error for every other string; the
embedding is a total function, so it never panics. -/
theorem c8_octave_parser_characterization :
    ∀ s : String, (octaveStrToOctave s).isSome ↔ s ∈ octaveDigitStrings := by
  intro s
  rw [octaveStrToOctave, lookup_isSome_iff_mem]
  have h : octaveDigitStrings = octaveTable.map Prod.fst := by decide
  rw [h]

/-- C9: the claim fails on the code: for B triple sharp plus 1 the range
guard passes (new index 49 lies in 0..=49), yet indexing `ALL_PITCHES`
(indices 0..=48) is out of bounds, so the addition panics through the
indexing, not through the guard's own panic — the guard's upper bound is
off by one. -/
theorem c9_guard_passes_indexing_panics :
    (0 ≤ (pitchIndex NamedPitch.BTripleSharp : Int) + 1 ∧
      (pitchIndex NamedPitch.BTripleSharp : Int) + 1 ≤ 49) ∧
    namedPitchAdd NamedPitch.BTripleSharp 1 =
      RustOutcome.panicked "index out of bounds: the len is 49 but the index is 49" := by
  decide

/-- C10: adding 7 to any spelling at table index at most 41 keeps the
letter and raises the semitone by one (mod 12), and adding 0 returns the
spelling unchanged. -/
theorem c10_add_seven_and_zero :
    ∀ p : NamedPitch,
      (pitchIndex p ≤ 41 →
        ∃ q, namedPitchAdd p 7 = RustOutcome.ok q ∧ q.letter = p.letter ∧
          q.pitch.semitone = (p.pitch.semitone + 1) % 12) ∧
      namedPitchAdd p 0 = RustOutcome.ok p := by decide

/-- C10 witness: the statement applied at C. -/
theorem c10_add_seven_and_zero_witness :
    pitchIndex NamedPitch.C ≤ 41 ∧
    (∃ q, namedPitchAdd NamedPitch.C 7 = RustOutcome.ok q ∧ q.letter = NamedPitch.C.letter ∧
      q.pitch.semitone = (NamedPitch.C.pitch.semitone + 1) % 12) ∧
    namedPitchAdd NamedPitch.C 0 = RustOutcome.ok NamedPitch.C :=
  ⟨by decide, (c10_add_seven_and_zero NamedPitch.C).1 (by decide),
   (c10_add_seven_and_zero NamedPitch.C).2⟩

end Kord
